import Mathlib

/-!
# Verification of the librefsm hierarchical state-machine runtime

Shallow embedding of the Go sources of `librescoot/librefsm`:
`machine.go`, `state.go`, `transition.go`, `types.go`, the definition
builder/validator, and the timer subsystem.

Modelling conventions:
* `StateID`/`EventID` are strings, as in `types.go`.
* Go maps (`definition.states`, `machine.timers`) are association lists with
  first-match lookup; insertion replaces any existing entry for the key, so
  the map semantics are preserved.
* User callbacks (`OnEnter`, `OnExit`, guards, conditions, transition
  actions, timer actions) are opaque Lean functions over a `Ctx` snapshot.
  In Go they receive a `*Context` holding a live machine pointer; between
  the snapshot's creation and the callback's return the engine performs no
  mutation, so a snapshot of the fields the callback can read is faithful.
* Side effects (setting the current leaf, starting/cancelling timers,
  running callbacks, sending events, notifications) are recorded in an
  explicit effect trace `List Eff`, so ordering claims become statements
  about traces.
* Go recursion that is not structurally decreasing (`enterState` through
  condition/default-child chains, parent-chain walks) takes an explicit
  fuel argument; fuel exhaustion yields a distinguished error and models
  nontermination of the Go code, never success.
* Errors are `Option String` carried alongside the post-state, because the
  Go code returns an `error` while leaving the machine in whatever state it
  had reached (needed to reason about partial transitions).
-/

namespace LibreFSM

/-- `types.go`: state identifier. -/
abbrev StateID := String

/-- `types.go`: event identifier. -/
abbrev EventID := String

/-- `types.go`: classification of a state's behavior. -/
inductive StateType where
  | Normal
  | Condition
  | Junction
  | Final
  deriving DecidableEq, Repr

/-- `types.go`: when a timer is automatically cancelled. -/
inductive TimerScope where
  | Global
  | State
  deriving DecidableEq, Repr

/-- `event.go`: an event; the opaque payload is irrelevant to every claim
and omitted. -/
structure Event where
  ID : EventID
  deriving DecidableEq, Repr

/-- Snapshot of the `*Context` fields a user callback can read
(`context.go`).  `currentState` mirrors `ctx.CurrentState()` reading the
machine's live current-leaf field at callback time. -/
structure Ctx where
  currentState : StateID
  event : Option Event := none
  fromState : StateID := ""
  toState : StateID := ""

/-- Result of a fallible user callback (`func(*Context) error`). -/
abbrev CbResult := Except String Unit

/-- `state.go`: a state record.  Field names match the Go struct
(`Type` is a Lean keyword, hence `Type'`). -/
structure State where
  ID : StateID
  Parent : StateID := ""
  Type' : StateType := .Normal
  DefaultChild : StateID := ""
  OnEnter : Option (Ctx → CbResult) := none
  OnExit : Option (Ctx → CbResult) := none
  Condition : Option (Ctx → StateID) := none
  Timeout : Nat := 0
  TimeoutEvent : EventID := ""
  TimeoutAction : Option (Ctx → CbResult) := none
  TimeoutTarget : StateID := ""
  DeclaredTimers : List String := []

/-- `transition.go`: a transition rule.  Field names match the Go struct. -/
structure Transition where
  From : StateID
  Event : EventID
  To : StateID
  Guard : Option (Ctx → Bool) := none
  Action : Option (Ctx → CbResult) := none

/-- `transition.go`: `WildcardState` matches any state. -/
def WildcardState : StateID := "*"

/-- `definition.go`: the FSM structure before building a machine.  The Go
`map[StateID]*State` is an association list with first-match lookup. -/
structure Definition where
  states : List (StateID × State)
  transitions : List Transition
  initial : StateID

/-- Lookup in the states map (`d.states[id]`). -/
def lookupS (d : Definition) (id : StateID) : Option State :=
  (d.states.find? (fun p => p.1 = id)).map (·.2)

/-- `timer.go`: a running timer entry.  Field names match the Go struct
(the `*time.Timer` handle itself carries no information we model). -/
structure TimerEntry where
  event : Event
  scope : TimerScope
  ownerState : StateID
  duration : Nat
  action : Option (Ctx → CbResult) := none

/-- `machine.go`: the mutable runtime instance.  `hasStateChangeCallback`
records whether `stateChangeCallback != nil`. -/
structure Machine where
  definition : Definition
  currentState : StateID := ""
  timers : List (String × TimerEntry) := []
  hasStateChangeCallback : Bool := false

/-- Lookup in the timer table (`m.timers[name]`). -/
def lookupT (ts : List (String × TimerEntry)) (name : String) : Option TimerEntry :=
  (ts.find? (fun p => p.1 = name)).map (·.2)

/-- Observable engine effects, in execution order.  Ordering claims of the
spec are statements about these traces. -/
inductive Eff where
  | setCurrent (s : StateID)
  | cleanupScoped (owner : StateID)
  | timerCancel (name : String)
  | timerStopCall (name : String)
  | timerStart (name : String) (dur : Nat) (ev : EventID) (sc : TimerScope) (owner : StateID)
  | timerFire (name : String)
  | timerActionRun (name : String)
  | enterCb (s : StateID)
  | exitCb (s : StateID)
  | condEval (s : StateID) (result : StateID)
  | transAction (f t : StateID)
  | notify (f t : StateID)
  | send (ev : EventID)
  deriving DecidableEq, Repr

/-- Result of a machine operation: post-state, effect trace, optional
error (Go returns `error` while the machine keeps its reached state). -/
structure MRes where
  m : Machine
  tr : List Eff
  err : Option String := none

/-- Sequencing that stops at the first error, accumulating the trace
(mirrors Go's `if err := ...; err != nil { return err }` chains). -/
def MRes.then (r : MRes) (k : Machine → MRes) : MRes :=
  match r.err with
  | some _ => r
  | none =>
      let r2 := k r.m
      ⟨r2.m, r.tr ++ r2.tr, r2.err⟩

/-- `machine.go` `makeContext`: snapshot for a callback. -/
def makeContext (m : Machine) (ev : Option Event) : Ctx :=
  { currentState := m.currentState, event := ev }

/-! ## Timer subsystem (`timer.go`) -/

/-- Remove the entry for `name` (`delete(m.timers, name)`). -/
def removeT (ts : List (String × TimerEntry)) (name : String) :
    List (String × TimerEntry) :=
  ts.filter (fun p => ¬ p.1 = name)

/-- `startTimerInternalWithAction`: cancel any existing timer of the same
name, then install the new entry. -/
def startTimerInternalWithAction (m : Machine) (name : String) (duration : Nat)
    (event : Event) (scope : TimerScope) (owner : StateID)
    (action : Option (Ctx → CbResult)) : Machine × List Eff :=
  let (m1, tr1) :=
    match lookupT m.timers name with
    | some _ => ({ m with timers := removeT m.timers name }, [Eff.timerCancel name])
    | none => (m, ([] : List Eff))
  let entry : TimerEntry :=
    { event := event, scope := scope, ownerState := owner
      duration := duration, action := action }
  ({ m1 with timers := m1.timers ++ [(name, entry)] },
   tr1 ++ [Eff.timerStart name duration event.ID scope owner])

/-- `startTimerInternal`. -/
def startTimerInternal (m : Machine) (name : String) (duration : Nat)
    (event : Event) (scope : TimerScope) (owner : StateID) : Machine × List Eff :=
  startTimerInternalWithAction m name duration event scope owner none

/-- `StopTimer`: idempotent removal by name.  The `timerStopCall` effect
marks the call itself; `timerCancel` marks an actual removal. -/
def StopTimer (m : Machine) (name : String) : Machine × List Eff :=
  match lookupT m.timers name with
  | some _ =>
      ({ m with timers := removeT m.timers name },
       [Eff.timerStopCall name, Eff.timerCancel name])
  | none => (m, [Eff.timerStopCall name])

/-- `cleanupTimersForState`: cancel every State-scoped timer owned by the
given state. -/
def cleanupTimersForState (m : Machine) (stateID : StateID) : Machine × List Eff :=
  let victims := m.timers.filter
    (fun p => p.2.scope = TimerScope.State ∧ p.2.ownerState = stateID)
  ({ m with timers := (m.timers.filter
      (fun p => ¬ (p.2.scope = TimerScope.State ∧ p.2.ownerState = stateID))) },
   Eff.cleanupScoped stateID :: victims.map (fun p => Eff.timerCancel p.1))

/-- The body of the `time.AfterFunc` closure in
`startTimerInternalWithAction`, run when the timer named `name` fires: if
the entry is still in the table, remove it first, then run the optional
action; an action failure restarts the timer with the entry's own
parameters instead of sending; otherwise the target event is sent.  (In
the sequential model the table entry at fire time is the entry the firing
timer installed, so the closure-captured `event`/`scope`/`owner` coincide
with the entry's fields.) -/
def fireTimer (m : Machine) (name : String) : Machine × List Eff :=
  match lookupT m.timers name with
  | none => (m, [])
  | some entry =>
      let m1 : Machine := { m with timers := removeT m.timers name }
      match entry.action with
      | none => (m1, [Eff.timerFire name, Eff.send entry.event.ID])
      | some act =>
          match act (makeContext m1 none) with
          | .ok _ =>
              (m1, [Eff.timerFire name, Eff.timerActionRun name,
                    Eff.send entry.event.ID])
          | .error _ =>
              let r := startTimerInternalWithAction m1 name entry.duration
                entry.event entry.scope entry.ownerState entry.action
              (r.1, [Eff.timerFire name, Eff.timerActionRun name] ++ r.2)

/-- Iterated firing of the timer named `name` (each fire immediately after
the restart), used to state the retry law. -/
def fireTimerIter (m : Machine) (name : String) : Nat → Machine × List Eff
  | 0 => (m, [])
  | n + 1 =>
      let r := fireTimer m name
      let r2 := fireTimerIter r.1 name n
      (r2.1, r.2 ++ r2.2)

/-! ## Hierarchy navigator (`machine.go`) -/

/-- The parent chain starting at `current` (inclusive), stopping at the
root `""` or an unknown state — the walk shared by `findAllTransitions`,
`findLCA`, `isInStateInternal`.  Fueled: Go would loop forever on a parent
cycle, which validation excludes. -/
def ancestorChain (d : Definition) : Nat → StateID → List StateID
  | 0, _ => []
  | fuel + 1, current =>
      if current = "" then []
      else
        current ::
          (match lookupS d current with
           | none => []
           | some st => ancestorChain d fuel st.Parent)

/-- Fuel sufficient for every parent walk of a validated definition. -/
def hierFuel (d : Definition) : Nat := d.states.length + 1

/-- The walk from `b` in `findLCA`: return the first state of `b`'s
ancestor chain that is among `a`'s ancestors (membership is tested before
the lookup, as in the Go loop); `""` if the walk dead-ends. -/
def lcaWalk (d : Definition) : Nat → List StateID → StateID → StateID
  | 0, _, _ => ""
  | fuel + 1, ancestorsA, current =>
      if current ∈ ancestorsA then current
      else
        match lookupS d current with
        | none => ""
        | some st => lcaWalk d fuel ancestorsA st.Parent

/-- `findLCA`: least common ancestor of `a` and `b`; the empty root is
always an ancestor. -/
def findLCA (fuel : Nat) (m : Machine) (a b : StateID) : StateID :=
  if a = b then a
  else lcaWalk m.definition fuel (ancestorChain m.definition fuel a ++ [""]) b

/-- `pathFromAncestor`: the path from `ancestor` (exclusive) down to
`target` (inclusive), built by walking `target`'s parent chain and
prepending. -/
def pathFromAncestor (d : Definition) : Nat → StateID → StateID → List StateID
  | 0, _, _ => []
  | fuel + 1, current, ancestor =>
      if current = "" ∨ current = ancestor then []
      else
        match lookupS d current with
        | none => [current]
        | some st => pathFromAncestor d fuel st.Parent ancestor ++ [current]

/-! ## Exit cascade (`machine.go`) -/

/-- The `for _, timerName := range state.DeclaredTimers { m.StopTimer(...) }`
loop in `exitState`. -/
def stopDeclaredTimers (m : Machine) : List String → Machine × List Eff
  | [] => (m, [])
  | n :: rest =>
      let r := StopTimer m n
      let r2 := stopDeclaredTimers r.1 rest
      (r2.1, r.2 ++ r2.2)

/-- `exitState`: cancel state-scoped timers, cancel declared timers,
cancel the declarative-timeout timer, then run the exit callback.  An
unknown state is a silent no-op, as in the Go code. -/
def exitState (m : Machine) (id : StateID) : MRes :=
  match lookupS m.definition id with
  | none => ⟨m, [], none⟩
  | some st =>
      let r1 := cleanupTimersForState m id
      let r2 := stopDeclaredTimers r1.1 st.DeclaredTimers
      let r3 := StopTimer r2.1 ("_timeout_" ++ id)
      let tr := r1.2 ++ r2.2 ++ r3.2
      match st.OnExit with
      | none => ⟨r3.1, tr, none⟩
      | some f =>
          match f (makeContext r3.1 none) with
          | .ok _ => ⟨r3.1, tr ++ [Eff.exitCb id], none⟩
          | .error e =>
              ⟨r3.1, tr ++ [Eff.exitCb id],
               some ("exit action failed for " ++ id ++ ": " ++ e)⟩

/-- `exitToAncestor`: exit states walking up from `from'` until (but
excluding) `ancestor`, stopping early on an exit error, a dead-end lookup,
or the root. -/
def exitToAncestor : Nat → Machine → StateID → StateID → MRes
  | 0, m, _, _ => ⟨m, [], none⟩
  | fuel + 1, m, from', ancestor =>
      if from' = "" ∨ from' = ancestor then ⟨m, [], none⟩
      else
        let r := exitState m from'
        match r.err with
        | some e => ⟨r.m, r.tr, some e⟩
        | none =>
            match lookupS m.definition from' with
            | none => r
            | some st =>
                let r2 := exitToAncestor fuel r.m st.Parent ancestor
                ⟨r2.m, r.tr ++ r2.tr, r2.err⟩

/-! ## Entry cascade (`machine.go` `enterState`) -/

/-- The declarative-timeout start in `enterState`: started exactly when the
state declares a positive timeout and a timeout event, scoped to the state
being entered. -/
def timeoutStep (st : State) (id : StateID) (m : Machine) : Machine × List Eff :=
  if st.Timeout ≠ 0 ∧ st.TimeoutEvent ≠ "" then
    startTimerInternalWithAction m ("_timeout_" ++ id) st.Timeout
      ⟨st.TimeoutEvent⟩ TimerScope.State id st.TimeoutAction
  else (m, [])

/-- The entry-callback step of `enterState`: the callback sees the
already-updated current leaf, the triggering event, and the from/to pair;
its error aborts the cascade. -/
def entryStep (st : State) (id : StateID) (ev : Option Event) (fromState : StateID)
    (m : Machine) : Option String × List Eff :=
  match st.OnEnter with
  | none => (none, [])
  | some f =>
      match f { makeContext m ev with fromState := fromState, toState := id } with
      | .ok _ => (none, [Eff.enterCb id])
      | .error e =>
          (some ("entry action failed for " ++ id ++ ": " ++ e),
           [Eff.enterCb id])

/-- The condition/junction resolution step of `enterState`: `some nx` when
the state is a pseudo-state whose resolution function returns a non-empty
id. -/
def condStep (st : State) (id : StateID) (ev : Option Event) (m : Machine) :
    Option StateID × List Eff :=
  if st.Type' = .Condition ∨ st.Type' = .Junction then
    match st.Condition with
    | some c =>
        let nx := c (makeContext m ev)
        (if nx = "" then none else some nx, [Eff.condEval id nx])
    | none => (none, [])
  else (none, [])

/-- `enterState`: set the current leaf, start the declarative timeout,
run the entry callback, resolve condition/junction pseudo-states, descend
into the default child.  `fromState` is the `from` exposed to the entry
callback's context. -/
def enterState : Nat → Machine → StateID → Option Event → StateID → MRes
  | 0, m, _, _, _ => ⟨m, [], some "recursion limit exceeded"⟩
  | fuel + 1, m, id, ev, fromState =>
      match lookupS m.definition id with
      | none => ⟨m, [], some ("state " ++ id ++ " not found")⟩
      | some st =>
          let rT := timeoutStep st id { m with currentState := id }
          let m2 := rT.1
          let trHead := Eff.setCurrent id :: rT.2
          match entryStep st id ev fromState m2 with
          | (some e, trE) => ⟨m2, trHead ++ trE, some e⟩
          | (none, trE) =>
              match condStep st id ev m2 with
              | (some nx, trC) =>
                  let exr := exitState m2 id
                  match exr.err with
                  | some e => ⟨exr.m, trHead ++ trE ++ trC ++ exr.tr, some e⟩
                  | none =>
                      let rc := enterState fuel exr.m nx ev id
                      ⟨rc.m, trHead ++ trE ++ trC ++ exr.tr ++ rc.tr, rc.err⟩
              | (none, trC) =>
                  if st.DefaultChild ≠ "" then
                    let rc := enterState fuel m2 st.DefaultChild ev id
                    ⟨rc.m, trHead ++ trE ++ trC ++ rc.tr, rc.err⟩
                  else ⟨m2, trHead ++ trE ++ trC, none⟩

/-- The entry loop of `enterFromAncestor`: enter each state on the path,
threading the previous state as the callback's `from`. -/
def enterSeq (fuel : Nat) (ev : Option Event) :
    Machine → List StateID → StateID → MRes
  | m, [], _ => ⟨m, [], none⟩
  | m, s :: rest, prev =>
      let r := enterState fuel m s ev prev
      match r.err with
      | some e => ⟨r.m, r.tr, some e⟩
      | none =>
          let r2 := enterSeq fuel ev r.m rest s
          ⟨r2.m, r.tr ++ r2.tr, r2.err⟩

/-- `enterFromAncestor`: re-enter the ancestor itself when `target =
ancestor`, otherwise enter each state on `pathFromAncestor`. -/
def enterFromAncestor (fuel : Nat) (m : Machine) (target ancestor : StateID)
    (ev : Option Event) (fromState : StateID) : MRes :=
  if target = ancestor then enterState fuel m target ev fromState
  else enterSeq fuel ev m (pathFromAncestor m.definition fuel target ancestor) fromState

/-! ## Transition execution and selection (`machine.go`) -/

/-- `executeTransition`: LCA, exit cascade, transition action, entry
cascade, state-change notification. -/
def executeTransition (fuel : Nat) (m : Machine) (t : Transition) (ev : Event) :
    MRes :=
  let fromState := m.currentState
  let toState := t.To
  let lca := findLCA fuel m fromState toState
  let exr := exitToAncestor fuel m fromState lca
  match exr.err with
  | some e => ⟨exr.m, exr.tr, some ("exit failed: " ++ e)⟩
  | none =>
      let actRes : Option String × List Eff :=
        match t.Action with
        | none => (none, [])
        | some a =>
            match a { makeContext exr.m (some ev) with
                      fromState := fromState, toState := toState } with
            | .ok _ => (none, [Eff.transAction fromState toState])
            | .error e =>
                (some ("transition action failed: " ++ e),
                 [Eff.transAction fromState toState])
      match actRes with
      | (some e, trA) => ⟨exr.m, exr.tr ++ trA, some e⟩
      | (none, trA) =>
          let enr := enterFromAncestor fuel exr.m toState lca (some ev) fromState
          match enr.err with
          | some e => ⟨enr.m, exr.tr ++ trA ++ enr.tr, some ("enter failed: " ++ e)⟩
          | none =>
              let trN :=
                if m.hasStateChangeCallback ∧ fromState ≠ enr.m.currentState then
                  [Eff.notify fromState enr.m.currentState]
                else []
              ⟨enr.m, exr.tr ++ trA ++ enr.tr ++ trN, none⟩

/-- The ancestor-walking half of `findAllTransitions`: at each state of
the chain, append (in declaration order) the transitions matching the
event whose source is that state. -/
def findAllTransitionsFrom (d : Definition) : Nat → StateID → EventID →
    List Transition
  | 0, _, _ => []
  | fuel + 1, current, evid =>
      if current = "" then []
      else
        (d.transitions.filter (fun t => t.Event = evid ∧ t.From = current)) ++
          (match lookupS d current with
           | none => []
           | some st => findAllTransitionsFrom d fuel st.Parent evid)

/-- `findAllTransitions`: candidates from the current state and its
ancestors, then wildcard-source candidates. -/
def findAllTransitions (fuel : Nat) (m : Machine) (ev : Event) : List Transition :=
  findAllTransitionsFrom m.definition fuel m.currentState ev.ID ++
    m.definition.transitions.filter
      (fun t => t.Event = ev.ID ∧ t.From = WildcardState)

/-- Whether `processEvent` would choose transition `t` against context
`ctx`: no guard, or guard true. -/
def guardPasses (ctx : Ctx) (t : Transition) : Bool :=
  match t.Guard with
  | none => true
  | some g => g ctx

/-- The `for _, transition := range transitions` loop of `processEvent`. -/
def tryTransitions (fuel : Nat) (m : Machine) (ev : Event) (ctx : Ctx) :
    List Transition → MRes
  | [] => ⟨m, [], none⟩
  | t :: rest =>
      if guardPasses ctx t then executeTransition fuel m t ev
      else tryTransitions fuel m ev ctx rest

/-- `processEvent`: find candidates, try them in order, silently discard
the event if none matches or every guard rejects. -/
def processEvent (fuel : Nat) (m : Machine) (ev : Event) : MRes :=
  let ts := findAllTransitions fuel m ev
  if ts.isEmpty then ⟨m, [], none⟩
  else tryTransitions fuel m ev (makeContext m (some ev)) ts

/-! ## Forced state assignment and start (`machine.go`) -/

/-- `SetState`: direct state change bypassing event-driven transitions. -/
def SetState (fuel : Nat) (m : Machine) (newState : StateID) : MRes :=
  if (lookupS m.definition newState).isNone then
    ⟨m, [], some ("unknown state: " ++ newState)⟩
  else if m.currentState = newState then ⟨m, [], none⟩
  else
    let fromState := m.currentState
    let exr := exitState m m.currentState
    match exr.err with
    | some e => ⟨exr.m, exr.tr, some ("exit state " ++ fromState ++ ": " ++ e)⟩
    | none =>
        let enr := enterState fuel exr.m newState none fromState
        match enr.err with
        | some e =>
            ⟨enr.m, exr.tr ++ enr.tr,
             some ("enter state " ++ newState ++ ": " ++ e)⟩
        | none =>
            let trN :=
              if m.hasStateChangeCallback then
                [Eff.notify fromState enr.m.currentState]
              else []
            ⟨enr.m, exr.tr ++ enr.tr ++ trN, none⟩

/-- `Start`: enter the initial state (the event loop itself is the
dispatcher and out of the sequential model). -/
def Start (fuel : Nat) (m : Machine) : MRes :=
  let r := enterState fuel m m.definition.initial none ""
  match r.err with
  | some e => ⟨r.m, r.tr, some ("failed to enter initial state: " ++ e)⟩
  | none => r

/-! ## Validator and builder (`definition.go`) -/

/-- The parent/default-child check of `Validate`'s first loop, for one
state entry: true when the entry is defective. -/
def parentDefectB (d : Definition) (p : StateID × State) : Bool :=
  (if p.2.Parent = "" then false else (lookupS d p.2.Parent).isNone) ||
    (if p.2.DefaultChild = "" then false else (lookupS d p.2.DefaultChild).isNone)

/-- The transition-endpoint check of `Validate`, for one transition: true
when defective. -/
def transitionDefectB (d : Definition) (t : Transition) : Bool :=
  (if t.From = WildcardState then false else (lookupS d t.From).isNone) ||
    (lookupS d t.To).isNone

/-- The condition/junction check of `Validate`, for one state entry. -/
def conditionDefectB (p : StateID × State) : Bool :=
  (p.2.Type' = StateType.Condition || p.2.Type' = StateType.Junction) &&
    p.2.Condition.isNone

/-- `checkParentCycle`'s walk: visited-set detection of a repeated state
in the parent chain.  Returns `true` when a cycle is detected.  Go
terminates because the visited set grows inside the finite key set; the
fuel is an artifact shown unreachable for `fuel ≥ |states| + 1`. -/
def checkParentCycleAux (d : Definition) : StateID → List StateID → Nat → Bool
  | _, _, 0 => true
  | current, visited, fuel + 1 =>
      if current = "" then false
      else if current ∈ visited then true
      else
        match lookupS d current with
        | none => false
        | some st => checkParentCycleAux d st.Parent (current :: visited) fuel

/-- `checkParentCycle`: detect a cycle in the parent chain from `id`. -/
def checkParentCycle (d : Definition) (id : StateID) : Bool :=
  checkParentCycleAux d id [] (d.states.length + 1)

/-- `Validate`: the static checks, in the order of the Go code.  `none`
means the definition is valid.  (The Go map iteration order is
unspecified; which offending entry is reported first does not matter, only
whether one exists.) -/
def Validate (d : Definition) : Option String :=
  if d.initial = "" then some "no initial state defined"
  else if (lookupS d d.initial).isNone then some "initial state not defined"
  else if d.states.any (parentDefectB d) then
    some "state references undefined parent or default child"
  else if d.transitions.any (transitionDefectB d) then
    some "transition references undefined state"
  else if d.states.any conditionDefectB then
    some "condition/junction state has no condition function"
  else if d.states.any (fun p => checkParentCycle d p.1) then
    some "cycle detected in parent hierarchy"
  else none

/-- The timeout-target pass of `Build`: for each state with a
`TimeoutTarget`, verify the target exists and synthesize the automatic
transition, in declaration order. -/
def buildTimeoutTransitions (d : Definition) :
    List (StateID × State) → Except String (List Transition)
  | [] => .ok []
  | (id, st) :: rest =>
      if st.TimeoutTarget = "" then buildTimeoutTransitions d rest
      else if (lookupS d st.TimeoutTarget).isNone then
        .error ("state " ++ id ++ " timeout target " ++ st.TimeoutTarget ++
          " not defined")
      else
        match buildTimeoutTransitions d rest with
        | .error e => .error e
        | .ok ts =>
            .ok ({ From := id, Event := st.TimeoutEvent,
                   To := st.TimeoutTarget : Transition } :: ts)

/-- `Build`: validate, synthesize timeout transitions, and create the
machine (current state empty, no timers, no state-change callback unless
an option installs one). -/
def Build (d : Definition) : Except String Machine :=
  match Validate d with
  | some e => .error ("invalid definition: " ++ e)
  | none =>
      match buildTimeoutTransitions d d.states with
      | .error e => .error e
      | .ok extra =>
          .ok { definition := { d with transitions := d.transitions ++ extra }
                currentState := ""
                timers := []
                hasStateChangeCallback := false }

/-! ## Basic lemmas about the timer table -/

theorem find?_removeT (ts : List (String × TimerEntry)) (name : String) :
    (removeT ts name).find? (fun p => p.1 = name) = none := by
  rw [List.find?_eq_none]
  intro x hx
  simp only [removeT, List.mem_filter] at hx
  simpa using hx.2

theorem lookupT_removeT_append (ts : List (String × TimerEntry)) (name : String)
    (entry : TimerEntry) :
    lookupT (removeT ts name ++ [(name, entry)]) name = some entry := by
  simp [lookupT, List.find?_append, find?_removeT, List.find?]

theorem name_not_mem_removeT (ts : List (String × TimerEntry)) (name : String) :
    name ∉ (removeT ts name).map Prod.fst := by
  intro h
  rcases List.mem_map.mp h with ⟨p, hp, hfst⟩
  simp only [removeT, List.mem_filter] at hp
  have hne : ¬ p.1 = name := by simpa using hp.2
  exact hne hfst

theorem startTimer_preserves (m : Machine) (name : String) (dur : Nat)
    (ev : Event) (sc : TimerScope) (ow : StateID)
    (act : Option (Ctx → CbResult)) :
    (startTimerInternalWithAction m name dur ev sc ow act).1.definition
        = m.definition ∧
    (startTimerInternalWithAction m name dur ev sc ow act).1.currentState
        = m.currentState ∧
    (startTimerInternalWithAction m name dur ev sc ow act).1.hasStateChangeCallback
        = m.hasStateChangeCallback := by
  unfold startTimerInternalWithAction
  cases lookupT m.timers name <;> simp

/--
C6: starting a timer whose name is already present cancels the prior timer
exactly once (a single `timerCancel` effect), replaces the table entry
rather than merging or stacking, leaves exactly one entry of that name,
and preserves key uniqueness, so no double-fire is possible.
-/
theorem startTimer_replace_unique (m : Machine) (name : String) (dur : Nat)
    (ev : Event) (sc : TimerScope) (ow : StateID)
    (act : Option (Ctx → CbResult)) (old : TimerEntry)
    (h : lookupT m.timers name = some old) :
    (startTimerInternalWithAction m name dur ev sc ow act).2
        = [Eff.timerCancel name, Eff.timerStart name dur ev.ID sc ow] ∧
    (startTimerInternalWithAction m name dur ev sc ow act).1.timers
        = removeT m.timers name ++ [(name, ⟨ev, sc, ow, dur, act⟩)] ∧
    lookupT (startTimerInternalWithAction m name dur ev sc ow act).1.timers name
        = some ⟨ev, sc, ow, dur, act⟩ ∧
    (((startTimerInternalWithAction m name dur ev sc ow act).1.timers.filter
        (fun p => p.1 = name)).length = 1) ∧
    ((m.timers.map Prod.fst).Nodup →
      ((startTimerInternalWithAction m name dur ev sc ow act).1.timers.map
          Prod.fst).Nodup) := by
  have hr : startTimerInternalWithAction m name dur ev sc ow act
      = ({ m with timers := removeT m.timers name ++ [(name, ⟨ev, sc, ow, dur, act⟩)] },
         [Eff.timerCancel name, Eff.timerStart name dur ev.ID sc ow]) := by
    unfold startTimerInternalWithAction
    rw [h]
    rfl
  refine ⟨by rw [hr], by rw [hr], ?_, ?_, ?_⟩
  · rw [hr]
    exact lookupT_removeT_append m.timers name _
  · rw [hr]
    have h1 : (removeT m.timers name).filter (fun p => p.1 = name) = [] := by
      rw [List.filter_eq_nil_iff]
      intro p hp
      simp only [removeT, List.mem_filter] at hp
      simpa using hp.2
    simp [List.filter_append, h1]
  · intro hnd
    rw [hr]
    simp only [List.map_append, List.map_cons, List.map_nil]
    rw [List.nodup_append]
    have hsub : ((removeT m.timers name).map Prod.fst).Sublist (m.timers.map Prod.fst) :=
      (List.filter_sublist m.timers).map Prod.fst
    refine ⟨List.Nodup.sublist hsub hnd, List.nodup_singleton name, ?_⟩
    intro x hx hx2
    rw [List.mem_singleton] at hx2
    rw [hx2] at hx
    exact name_not_mem_removeT m.timers name hx

theorem fireTimer_action_none (m : Machine) (name : String) (entry : TimerEntry)
    (h : lookupT m.timers name = some entry) (ha : entry.action = none) :
    fireTimer m name =
      ({ m with timers := removeT m.timers name },
       [Eff.timerFire name, Eff.send entry.event.ID]) := by
  obtain ⟨eev, esc, eow, edur, eact⟩ := entry
  simp only at ha
  subst ha
  unfold fireTimer
  rw [h]

theorem fireTimer_action_ok (m : Machine) (name : String) (entry : TimerEntry)
    (act : Ctx → CbResult) (u : Unit)
    (h : lookupT m.timers name = some entry) (ha : entry.action = some act)
    (hu : act (makeContext { m with timers := removeT m.timers name } none) = .ok u) :
    fireTimer m name =
      ({ m with timers := removeT m.timers name },
       [Eff.timerFire name, Eff.timerActionRun name, Eff.send entry.event.ID]) := by
  obtain ⟨eev, esc, eow, edur, eact⟩ := entry
  simp only at ha
  subst ha
  unfold fireTimer
  rw [h]
  dsimp only
  rw [hu]

theorem fireTimer_action_error (m : Machine) (name : String) (entry : TimerEntry)
    (act : Ctx → CbResult) (e : String)
    (h : lookupT m.timers name = some entry) (ha : entry.action = some act)
    (he : act (makeContext { m with timers := removeT m.timers name } none) = .error e) :
    fireTimer m name =
      ({ m with timers := removeT m.timers name ++ [(name, entry)] },
       [Eff.timerFire name, Eff.timerActionRun name,
        Eff.timerStart name entry.duration entry.event.ID entry.scope
          entry.ownerState]) := by
  obtain ⟨eev, esc, eow, edur, eact⟩ := entry
  simp only at ha
  subst ha
  unfold fireTimer
  rw [h]
  dsimp only
  rw [he]
  unfold startTimerInternalWithAction
  rw [show lookupT (removeT m.timers name) name = none by
        simp [lookupT, find?_removeT]]
  rfl

theorem fireIter_retry_aux (name : String) (entry : TimerEntry)
    (act : Ctx → CbResult) (ha : entry.action = some act)
    (hfail : ∀ c, ∃ e, act c = .error e) :
    ∀ n (m : Machine), lookupT m.timers name = some entry →
      (∀ x, Eff.send x ∉ (fireTimerIter m name n).2) ∧
      lookupT (fireTimerIter m name n).1.timers name = some entry := by
  intro n
  induction n with
  | zero =>
      intro m hm
      refine ⟨?_, ?_⟩
      · intro x hx
        simp [fireTimerIter] at hx
      · simpa [fireTimerIter] using hm
  | succ k ih =>
      intro m hm
      obtain ⟨e, he⟩ :=
        hfail (makeContext { m with timers := removeT m.timers name } none)
      have hfire := fireTimer_action_error m name entry act e hm ha he
      have hm2 : lookupT ({ m with
          timers := removeT m.timers name ++ [(name, entry)] } : Machine).timers name
          = some entry := lookupT_removeT_append m.timers name entry
      obtain ⟨ihs, ihl⟩ := ih _ hm2
      constructor
      · intro x hx
        simp only [fireTimerIter, hfire, List.mem_append] at hx
        rcases hx with hx | hx
        · simp at hx
        · exact ihs x hx
      · simpa [fireTimerIter, hfire] using ihl

/--
C5: when the timer named `name` fires with entry `entry` in the table, the
entry is removed before anything else runs (`timerFire` heads the trace, and
both the action's context and the restart operate on the already-removed
table); if the action errors, the timer is reinstalled with identical
parameters (same name, duration, event, scope, owner, action) and no event
is sent; if the action is absent or succeeds, the target event is sent; and
a timer whose action always fails never sends its event and stays active for
any number of fires.
-/
theorem timer_fire_retry (m : Machine) (name : String) (entry : TimerEntry)
    (h : lookupT m.timers name = some entry) :
    ((fireTimer m name).2.head? = some (Eff.timerFire name)) ∧
    (entry.action = none →
      fireTimer m name =
        ({ m with timers := removeT m.timers name },
         [Eff.timerFire name, Eff.send entry.event.ID])) ∧
    (∀ act, entry.action = some act →
      (∀ u, act (makeContext { m with timers := removeT m.timers name } none) = .ok u →
        fireTimer m name =
          ({ m with timers := removeT m.timers name },
           [Eff.timerFire name, Eff.timerActionRun name,
            Eff.send entry.event.ID])) ∧
      (∀ e, act (makeContext { m with timers := removeT m.timers name } none) = .error e →
        (fireTimer m name).1.timers = removeT m.timers name ++ [(name, entry)] ∧
        (fireTimer m name).2 =
          [Eff.timerFire name, Eff.timerActionRun name,
           Eff.timerStart name entry.duration entry.event.ID entry.scope
             entry.ownerState] ∧
        (∀ x, Eff.send x ∉ (fireTimer m name).2)) ∧
      ((∀ c, ∃ e, act c = .error e) →
        ∀ n, (∀ x, Eff.send x ∉ (fireTimerIter m name n).2) ∧
          lookupT (fireTimerIter m name n).1.timers name = some entry)) := by
  refine ⟨?_, ?_, ?_⟩
  · cases ha : entry.action with
    | none => simp [fireTimer_action_none m name entry h ha]
    | some act =>
        cases hres : act (makeContext { m with timers := removeT m.timers name } none) with
        | ok u => simp [fireTimer_action_ok m name entry act u h ha hres]
        | error e => simp [fireTimer_action_error m name entry act e h ha hres]
  · intro ha
    exact fireTimer_action_none m name entry h ha
  · intro act ha
    refine ⟨?_, ?_, ?_⟩
    · intro u hu
      exact fireTimer_action_ok m name entry act u h ha hu
    · intro e he
      have hfire := fireTimer_action_error m name entry act e h ha he
      refine ⟨by rw [hfire], by rw [hfire], ?_⟩
      intro x hx
      rw [hfire] at hx
      simp at hx
    · intro hfail n
      exact fireIter_retry_aux name entry act ha hfail n m h

/-! ## C1: transition selection -/

theorem findAllTransitionsFrom_eq_flatMap (d : Definition) (evid : EventID) :
    ∀ fuel cur, findAllTransitionsFrom d fuel cur evid =
      (ancestorChain d fuel cur).flatMap
        (fun a => d.transitions.filter (fun t => t.Event = evid ∧ t.From = a)) := by
  intro fuel
  induction fuel with
  | zero => intro cur; rfl
  | succ k ih =>
      intro cur
      by_cases hc : cur = ""
      · simp [findAllTransitionsFrom, ancestorChain, hc]
      · cases hl : lookupS d cur with
        | none => simp [findAllTransitionsFrom, ancestorChain, hc, hl]
        | some st => simp [findAllTransitionsFrom, ancestorChain, hc, hl, ih]

theorem tryTransitions_eq_find? (fuel : Nat) (m : Machine) (ev : Event) (ctx : Ctx) :
    ∀ l, tryTransitions fuel m ev ctx l =
      (match l.find? (guardPasses ctx) with
       | none => ⟨m, [], none⟩
       | some t => executeTransition fuel m t ev) := by
  intro l
  induction l with
  | nil => rfl
  | cons t rest ih =>
      by_cases hg : guardPasses ctx t
      · rw [tryTransitions, List.find?_cons_of_pos _ hg]
        simp [hg]
      · rw [tryTransitions, List.find?_cons_of_neg _ (by simpa using hg)]
        simp [hg, ih]

/--
C1: for every machine and dispatched event, the candidate list is exactly:
transitions on the current leaf, then on each ancestor walking outward
(closer ancestors first), then wildcard-source transitions, preserving
declaration order within each tier (the `filter` per chain element); the
guards are evaluated against a context whose `currentState` is the
pre-transition leaf; the first candidate with no guard or a true guard is
executed; and if no candidate is chosen the event is discarded with no
error and the machine (hence its current leaf) is unchanged.
-/
theorem processEvent_selection (fuel : Nat) (m : Machine) (ev : Event) :
    (findAllTransitions fuel m ev =
      (ancestorChain m.definition fuel m.currentState).flatMap
        (fun a => m.definition.transitions.filter
          (fun t => t.Event = ev.ID ∧ t.From = a)) ++
        m.definition.transitions.filter
          (fun t => t.Event = ev.ID ∧ t.From = WildcardState)) ∧
    ((makeContext m (some ev)).currentState = m.currentState) ∧
    (processEvent fuel m ev =
      match (findAllTransitions fuel m ev).find?
          (guardPasses (makeContext m (some ev))) with
      | none => ⟨m, [], none⟩
      | some t => executeTransition fuel m t ev) ∧
    ((findAllTransitions fuel m ev).find?
        (guardPasses (makeContext m (some ev))) = none →
      processEvent fuel m ev = ⟨m, [], none⟩)
    := by
  have h3 : processEvent fuel m ev =
      match (findAllTransitions fuel m ev).find?
          (guardPasses (makeContext m (some ev))) with
      | none => (⟨m, [], none⟩ : MRes)
      | some t => executeTransition fuel m t ev := by
    unfold processEvent
    by_cases he : (findAllTransitions fuel m ev).isEmpty
    · have hnil : findAllTransitions fuel m ev = [] := by
        simpa [List.isEmpty_iff] using he
      rw [if_pos he, hnil]
      rfl
    · rw [if_neg he, tryTransitions_eq_find?]
  refine ⟨?_, rfl, h3, ?_⟩
  · unfold findAllTransitions
    rw [findAllTransitionsFrom_eq_flatMap]
  · intro hnone
    rw [h3, hnone]

/-! ## C3: entry ordering -/

/-- The machine after the set-leaf and declarative-timeout steps of
`enterState` (shorthand for stating the entry-order theorem). -/
def entrySetupM (st : State) (id : StateID) (m : Machine) : Machine :=
  (timeoutStep st id { m with currentState := id }).1

/-- The timer-step trace of `enterState` (shorthand). -/
def entrySetupTr (st : State) (id : StateID) (m : Machine) : List Eff :=
  (timeoutStep st id { m with currentState := id }).2

/--
C3: entering state `id`: the current-leaf field is set to `id` first
(`setCurrent` heads the trace in every outcome, and every later step sees
the updated machine); the declarative-timeout timer is started second
(`timeoutStep`, a no-op unless the state declares a timeout); the entry
callback runs third and its error aborts the remainder of the transition
with exactly the steps so far performed; afterwards, a Condition/Junction
state with a non-empty resolution (`condStep = some nx`) is exited via
`exitState` (exit callback run, timers cancelled) and the resolved state is
entered recursively with `id` as the from-state; otherwise a declared
default child is entered recursively; otherwise the cascade settles with no
error.
-/
theorem enterState_entry_order (k : Nat) (m : Machine) (id : StateID)
    (ev : Option Event) (frm : StateID) (st : State)
    (hl : lookupS m.definition id = some st) :
    ((enterState (k + 1) m id ev frm).tr.head? = some (Eff.setCurrent id)) ∧
    (∃ rest, (enterState (k + 1) m id ev frm).tr =
      Eff.setCurrent id :: (entrySetupTr st id m ++ rest)) ∧
    (∀ e trE,
      entryStep st id ev frm (entrySetupM st id m) = (some e, trE) →
      enterState (k + 1) m id ev frm =
        ⟨entrySetupM st id m,
         (Eff.setCurrent id :: entrySetupTr st id m) ++ trE, some e⟩) ∧
    (∀ trE nx trC,
      entryStep st id ev frm (entrySetupM st id m) = (none, trE) →
      condStep st id ev (entrySetupM st id m) = (some nx, trC) →
      (∀ e, (exitState (entrySetupM st id m) id).err = some e →
        enterState (k + 1) m id ev frm =
          ⟨(exitState (entrySetupM st id m) id).m,
           (Eff.setCurrent id :: entrySetupTr st id m) ++ trE ++ trC ++
             (exitState (entrySetupM st id m) id).tr,
           some e⟩) ∧
      ((exitState (entrySetupM st id m) id).err = none →
        enterState (k + 1) m id ev frm =
          ⟨(enterState k (exitState (entrySetupM st id m) id).m nx ev id).m,
           (Eff.setCurrent id :: entrySetupTr st id m) ++ trE ++ trC ++
             (exitState (entrySetupM st id m) id).tr ++
             (enterState k (exitState (entrySetupM st id m) id).m nx ev id).tr,
           (enterState k (exitState (entrySetupM st id m) id).m nx ev id).err⟩)) ∧
    (∀ trE trC,
      entryStep st id ev frm (entrySetupM st id m) = (none, trE) →
      condStep st id ev (entrySetupM st id m) = (none, trC) →
      (st.DefaultChild ≠ "" →
        enterState (k + 1) m id ev frm =
          ⟨(enterState k (entrySetupM st id m) st.DefaultChild ev id).m,
           (Eff.setCurrent id :: entrySetupTr st id m) ++ trE ++ trC ++
             (enterState k (entrySetupM st id m) st.DefaultChild ev id).tr,
           (enterState k (entrySetupM st id m) st.DefaultChild ev id).err⟩) ∧
      (st.DefaultChild = "" →
        enterState (k + 1) m id ev frm =
          ⟨entrySetupM st id m,
           (Eff.setCurrent id :: entrySetupTr st id m) ++ trE ++ trC,
           none⟩)) := by
  have h2 : ∃ rest, (enterState (k + 1) m id ev frm).tr =
      Eff.setCurrent id :: (entrySetupTr st id m ++ rest) := by
    unfold entrySetupTr
    simp only [enterState]
    rw [hl]
    dsimp only
    repeat' split
    all_goals simp only [List.cons_append, List.append_assoc]
    all_goals exact ⟨_, rfl⟩
  refine ⟨?_, h2, ?_, ?_, ?_⟩
  · obtain ⟨rest, hr⟩ := h2
    rw [hr]
    simp
  · intro e trE hE
    simp only [enterState]
    rw [hl]
    dsimp only
    rw [show entryStep st id ev frm
          (timeoutStep st id { m with currentState := id }).1 = (some e, trE) from hE]
    rfl
  · intro trE nx trC hE hC
    constructor
    · intro e hxe
      simp only [enterState]
      rw [hl]
      dsimp only
      rw [show entryStep st id ev frm
            (timeoutStep st id { m with currentState := id }).1 = (none, trE) from hE]
      dsimp only
      rw [show condStep st id ev
            (timeoutStep st id { m with currentState := id }).1 = (some nx, trC) from hC]
      dsimp only
      rw [show (exitState (timeoutStep st id { m with currentState := id }).1 id).err
            = some e from hxe]
      try rfl
    · intro hxo
      simp only [enterState]
      rw [hl]
      dsimp only
      rw [show entryStep st id ev frm
            (timeoutStep st id { m with currentState := id }).1 = (none, trE) from hE]
      dsimp only
      rw [show condStep st id ev
            (timeoutStep st id { m with currentState := id }).1 = (some nx, trC) from hC]
      dsimp only
      rw [show (exitState (timeoutStep st id { m with currentState := id }).1 id).err
            = none from hxo]
      try rfl
  · intro trE trC hE hC
    constructor
    · intro hdc
      simp only [enterState]
      rw [hl]
      dsimp only
      rw [show entryStep st id ev frm
            (timeoutStep st id { m with currentState := id }).1 = (none, trE) from hE]
      dsimp only
      rw [show condStep st id ev
            (timeoutStep st id { m with currentState := id }).1 = (none, trC) from hC]
      dsimp only
      rw [if_pos hdc]
      try rfl
    · intro hdc
      simp only [enterState]
      rw [hl]
      dsimp only
      rw [show entryStep st id ev frm
            (timeoutStep st id { m with currentState := id }).1 = (none, trE) from hE]
      dsimp only
      rw [show condStep st id ev
            (timeoutStep st id { m with currentState := id }).1 = (none, trC) from hC]
      dsimp only
      rw [if_neg (by simpa using hdc)]
      try rfl

/-! ## C4: exit ordering -/

/-- Exit phase: cancel the state's State-scoped timers. -/
def scopedCleanupPhase (id : StateID) (m : Machine) : MRes :=
  let r := cleanupTimersForState m id
  ⟨r.1, r.2, none⟩

/-- Exit phase: one `StopTimer` call. -/
def stopTimerPhase (name : String) (m : Machine) : MRes :=
  let r := StopTimer m name
  ⟨r.1, r.2, none⟩

/-- Exit phase: stop each explicitly declared timer name. -/
def declaredTimersPhase (names : List String) (m : Machine) : MRes :=
  let r := stopDeclaredTimers m names
  ⟨r.1, r.2, none⟩

/-- Exit phase: run the exit callback. -/
def exitCbPhase (st : State) (id : StateID) (m : Machine) : MRes :=
  match st.OnExit with
  | none => ⟨m, [], none⟩
  | some f =>
      match f (makeContext m none) with
      | .ok _ => ⟨m, [Eff.exitCb id], none⟩
      | .error e =>
          ⟨m, [Eff.exitCb id], some ("exit action failed for " ++ id ++ ": " ++ e)⟩

/-- The per-state exit procedure in the order the claim states it: scoped
cleanup, then the declarative-timeout timer, then the declared timer
names, then the exit callback. -/
def exitStateClaimOrder (m : Machine) (id : StateID) : MRes :=
  match lookupS m.definition id with
  | none => ⟨m, [], none⟩
  | some st =>
      (((scopedCleanupPhase id m).then (stopTimerPhase ("_timeout_" ++ id))).then
        (declaredTimersPhase st.DeclaredTimers)).then (exitCbPhase st id)

/-- The per-state exit procedure in the order the code implements: scoped
cleanup, then the declared timer names, then the declarative-timeout
timer, then the exit callback. -/
def exitStateCodeOrder (m : Machine) (id : StateID) : MRes :=
  match lookupS m.definition id with
  | none => ⟨m, [], none⟩
  | some st =>
      (((scopedCleanupPhase id m).then (declaredTimersPhase st.DeclaredTimers)).then
        (stopTimerPhase ("_timeout_" ++ id))).then (exitCbPhase st id)

theorem StopTimer_preserves (m : Machine) (n : String) :
    (StopTimer m n).1.definition = m.definition ∧
    (StopTimer m n).1.currentState = m.currentState ∧
    (StopTimer m n).1.hasStateChangeCallback = m.hasStateChangeCallback := by
  unfold StopTimer
  cases lookupT m.timers n <;> simp

theorem stopDeclaredTimers_preserves :
    ∀ (names : List String) (m : Machine),
      (stopDeclaredTimers m names).1.definition = m.definition ∧
      (stopDeclaredTimers m names).1.currentState = m.currentState ∧
      (stopDeclaredTimers m names).1.hasStateChangeCallback
        = m.hasStateChangeCallback := by
  intro names
  induction names with
  | nil => intro m; exact ⟨rfl, rfl, rfl⟩
  | cons n rest ih =>
      intro m
      obtain ⟨h1, h2, h3⟩ := StopTimer_preserves m n
      obtain ⟨g1, g2, g3⟩ := ih (StopTimer m n).1
      refine ⟨?_, ?_, ?_⟩ <;> simp only [stopDeclaredTimers]
      · rw [g1, h1]
      · rw [g2, h2]
      · rw [g3, h3]

theorem exitState_preserves (m : Machine) (id : StateID) :
    (exitState m id).m.definition = m.definition ∧
    (exitState m id).m.currentState = m.currentState ∧
    (exitState m id).m.hasStateChangeCallback = m.hasStateChangeCallback := by
  unfold exitState
  cases hl : lookupS m.definition id with
  | none => exact ⟨rfl, rfl, rfl⟩
  | some st =>
      obtain ⟨a1, a2, a3⟩ :=
        stopDeclaredTimers_preserves st.DeclaredTimers (cleanupTimersForState m id).1
      obtain ⟨b1, b2, b3⟩ :=
        StopTimer_preserves
          (stopDeclaredTimers (cleanupTimersForState m id).1 st.DeclaredTimers).1
          ("_timeout_" ++ id)
      have ha1 : (cleanupTimersForState m id).1.definition = m.definition := rfl
      have ha2 : (cleanupTimersForState m id).1.currentState = m.currentState := rfl
      have ha3 : (cleanupTimersForState m id).1.hasStateChangeCallback
          = m.hasStateChangeCallback := rfl
      dsimp only
      repeat' split
      all_goals exact ⟨by rw [b1, a1, ha1], by rw [b2, a2, ha2], by rw [b3, a3, ha3]⟩

theorem exitState_eq_code_order (m : Machine) (id : StateID) :
    exitState m id = exitStateCodeOrder m id := by
  unfold exitState exitStateCodeOrder
  cases hl : lookupS m.definition id with
  | none => rfl
  | some st =>
      simp only [MRes.then, scopedCleanupPhase, declaredTimersPhase, stopTimerPhase,
        exitCbPhase]
      cases hoe : st.OnExit with
      | none => simp
      | some f =>
          cases hres : f (makeContext
              (StopTimer (stopDeclaredTimers (cleanupTimersForState m id).1
                st.DeclaredTimers).1 ("_timeout_" ++ id)).1 none) with
          | ok u => simp [hres]
          | error e => simp [hres]

/-- The walk of `exitToAncestor` as a list: the exit path from `current`
up to but excluding `ancestor`, innermost (leaf) first. -/
def exitPath (d : Definition) : Nat → StateID → StateID → List StateID
  | 0, _, _ => []
  | fuel + 1, current, ancestor =>
      if current = "" ∨ current = ancestor then []
      else
        current ::
          (match lookupS d current with
           | none => []
           | some st => exitPath d fuel st.Parent ancestor)

/-- Exit the listed states in order, stopping at the first error. -/
def runExitSeq (m : Machine) : List StateID → MRes
  | [] => ⟨m, [], none⟩
  | s :: rest =>
      let r := exitState m s
      match r.err with
      | some e => ⟨r.m, r.tr, some e⟩
      | none =>
          let r2 := runExitSeq r.m rest
          ⟨r2.m, r.tr ++ r2.tr, r2.err⟩

theorem exitToAncestor_eq_runExitSeq :
    ∀ fuel (m : Machine) (from' ancestor : StateID),
      exitToAncestor fuel m from' ancestor =
        runExitSeq m (exitPath m.definition fuel from' ancestor) := by
  intro fuel
  induction fuel with
  | zero => intro m f a; rfl
  | succ k ih =>
      intro m f a
      simp only [exitToAncestor, exitPath]
      by_cases h0 : f = "" ∨ f = a
      · rw [if_pos h0, if_pos h0]
        rfl
      · rw [if_neg h0, if_neg h0]
        cases hx : (exitState m f).err with
        | some e =>
            simp only [runExitSeq, hx]
        | none =>
            cases hl : lookupS m.definition f with
            | none =>
                simp only [runExitSeq, hx, hl]
                rw [List.append_nil]
                conv_rhs => rw [show (none : Option String) = (exitState m f).err from hx.symm]
            | some st =>
                simp only [runExitSeq, hx, hl]
                rw [ih, (exitState_preserves m f).1]

/--
C4 (amended): for every state exited during a transition, the exit steps
run in this order: first cancel the state's State-scoped timers, then
cancel its explicitly declared timer names, then cancel its
declarative-timeout timer, and only then run its exit callback
(`exitStateCodeOrder`); and the states on the exit path are processed
innermost (leaf) first, walking upward toward but excluding the LCA
(`runExitSeq` over `exitPath`).
-/
theorem exit_order_amended :
    (∀ m id, exitState m id = exitStateCodeOrder m id) ∧
    (∀ fuel (m : Machine) (from' ancestor : StateID),
      exitToAncestor fuel m from' ancestor =
        runExitSeq m (exitPath m.definition fuel from' ancestor)) :=
  ⟨exitState_eq_code_order, exitToAncestor_eq_runExitSeq⟩

/-- Concrete machine for the C4 counterexample: state `a` declares timer
`t` and a declarative timeout; both timers are active. -/
def dExitOrder : Definition :=
  { states := [("a", { ID := "a", Timeout := 5, TimeoutEvent := "to",
                       DeclaredTimers := ["t"] })]
    transitions := []
    initial := "a" }

/-- Runtime instance for the C4 counterexample. -/
def mExitOrder : Machine :=
  { definition := dExitOrder
    currentState := "a"
    timers := [("t", { event := ⟨"tev"⟩, scope := TimerScope.Global,
                       ownerState := "", duration := 3 }),
               ("_timeout_a", { event := ⟨"to"⟩, scope := TimerScope.State,
                                ownerState := "a", duration := 5 })] }

/--
C4 counterexample: the code stops the declared timer `t` before the
`StopTimer` call on the declarative-timeout timer, so the claimed order
(timeout cancellation before declared-timer cancellation) produces a
different trace than `exitState` on a state with one declared timer.
-/
theorem exitState_claim_order_counterexample :
    (exitState mExitOrder "a").tr ≠ (exitStateClaimOrder mExitOrder "a").tr := by
  decide

/-! ## C7 and C9: forced state assignment -/

/--
C7 (amended): `SetState` returns an error and leaves the machine unchanged
when the target id is undeclared; when the target is declared and differs
from the current leaf it exits only the current leaf via a single
`exitState` call (no LCA computation, no ancestor walk), then enters the
target directly, and on success emits the state-change notification with
the old leaf and the final new leaf (when a callback is installed); when
the target equals the current leaf it returns immediately with no effect
and no notification.
-/
theorem setState_behavior (fuel : Nat) (m : Machine) (id : StateID) :
    ((lookupS m.definition id).isNone = true →
      SetState fuel m id = ⟨m, [], some ("unknown state: " ++ id)⟩) ∧
    ((lookupS m.definition id).isSome = true → id = m.currentState →
      SetState fuel m id = ⟨m, [], none⟩) ∧
    ((lookupS m.definition id).isSome = true → id ≠ m.currentState →
      (∀ e, (exitState m m.currentState).err = some e →
        SetState fuel m id =
          ⟨(exitState m m.currentState).m, (exitState m m.currentState).tr,
           some ("exit state " ++ m.currentState ++ ": " ++ e)⟩) ∧
      ((exitState m m.currentState).err = none →
        (∀ e, (enterState fuel (exitState m m.currentState).m id none
            m.currentState).err = some e →
          SetState fuel m id =
            ⟨(enterState fuel (exitState m m.currentState).m id none
                m.currentState).m,
             (exitState m m.currentState).tr ++
               (enterState fuel (exitState m m.currentState).m id none
                 m.currentState).tr,
             some ("enter state " ++ id ++ ": " ++ e)⟩) ∧
        ((enterState fuel (exitState m m.currentState).m id none
            m.currentState).err = none →
          SetState fuel m id =
            ⟨(enterState fuel (exitState m m.currentState).m id none
                m.currentState).m,
             (exitState m m.currentState).tr ++
               (enterState fuel (exitState m m.currentState).m id none
                 m.currentState).tr ++
               (if m.hasStateChangeCallback then
                  [Eff.notify m.currentState
                    (enterState fuel (exitState m m.currentState).m id none
                      m.currentState).m.currentState]
                else []),
             none⟩))) := by
  refine ⟨?_, ?_, ?_⟩
  · intro h
    unfold SetState
    rw [if_pos h]
  · intro h1 h2
    have hne : lookupS m.definition id ≠ none := Option.isSome_iff_ne_none.mp h1
    unfold SetState
    rw [if_neg (by simpa [Option.isNone_iff_eq_none] using hne), if_pos h2.symm]
  · intro h1 h2
    have hne : lookupS m.definition id ≠ none := Option.isSome_iff_ne_none.mp h1
    have hcond : ¬ (m.currentState = id) := fun hq => h2 hq.symm
    constructor
    · intro e hxe
      unfold SetState
      rw [if_neg (by simpa [Option.isNone_iff_eq_none] using hne), if_neg hcond]
      dsimp only
      rw [show (exitState m m.currentState).err = some e from hxe]
    · intro hxo
      constructor
      · intro e hee
        unfold SetState
        rw [if_neg (by simpa [Option.isNone_iff_eq_none] using hne), if_neg hcond]
        dsimp only
        rw [show (exitState m m.currentState).err = none from hxo]
        dsimp only
        rw [show (enterState fuel (exitState m m.currentState).m id none
              m.currentState).err = some e from hee]
      · intro heo
        unfold SetState
        rw [if_neg (by simpa [Option.isNone_iff_eq_none] using hne), if_neg hcond]
        dsimp only
        rw [show (exitState m m.currentState).err = none from hxo]
        dsimp only
        rw [show (enterState fuel (exitState m m.currentState).m id none
              m.currentState).err = none from heo]

/-- Concrete machine for the C7 counterexample: two declared states, a
state-change callback installed, current leaf `off`. -/
def dSelfSet : Definition :=
  { states := [("off", { ID := "off" }), ("on", { ID := "on" })]
    transitions := []
    initial := "off" }

/-- Runtime instance for the C7 counterexample. -/
def mSelfSet : Machine :=
  { definition := dSelfSet
    currentState := "off"
    timers := []
    hasStateChangeCallback := true }

/--
C7 counterexample: `SetState` to the declared id equal to the current leaf
returns nil with an empty trace — no exit, no entry, and in particular no
state-change notification, although the claim asserts every declared
target is exited/entered and notified.
-/
theorem setState_self_counterexample :
    (lookupS mSelfSet.definition "off").isSome = true ∧
    mSelfSet.currentState = "off" ∧
    mSelfSet.hasStateChangeCallback = true ∧
    (SetState 5 mSelfSet "off").tr = [] ∧
    (SetState 5 mSelfSet "off").err = none := by
  decide

/--
C9: calling `SetState` with the id of the current leaf state itself (a
declared state) returns nil immediately and changes nothing: no exit or
entry callback runs, no timer is cancelled or started, the current leaf is
unchanged, and the state-change notification is not invoked (empty trace,
machine returned unchanged).
-/
theorem setState_self_noop (fuel : Nat) (m : Machine)
    (h : (lookupS m.definition m.currentState).isSome = true) :
    SetState fuel m m.currentState = ⟨m, [], none⟩ := by
  have hne : lookupS m.definition m.currentState ≠ none :=
    Option.isSome_iff_ne_none.mp h
  unfold SetState
  rw [if_neg (by simpa [Option.isNone_iff_eq_none] using hne), if_pos rfl]

/-! ## C10: exits never move the current leaf -/

/--
C10: exiting a state never modifies the current-leaf field — only entering
does — so the ancestor exit walk preserves it, and when the exit phase of
an event-driven transition fails, the error is surfaced with the machine's
current leaf still equal to the pre-transition leaf and the transition
aborted before the action and any entry step.
-/
theorem exit_preserves_current_leaf :
    (∀ m id, (exitState m id).m.currentState = m.currentState) ∧
    (∀ fuel (m : Machine) (a b : StateID),
      (exitToAncestor fuel m a b).m.currentState = m.currentState) ∧
    (∀ fuel (m : Machine) (t : Transition) (ev : Event) e,
      (exitToAncestor fuel m m.currentState
          (findLCA fuel m m.currentState t.To)).err = some e →
      executeTransition fuel m t ev =
        ⟨(exitToAncestor fuel m m.currentState
            (findLCA fuel m m.currentState t.To)).m,
         (exitToAncestor fuel m m.currentState
            (findLCA fuel m m.currentState t.To)).tr,
         some ("exit failed: " ++ e)⟩ ∧
      (executeTransition fuel m t ev).m.currentState = m.currentState) := by
  have hexit : ∀ m id, (exitState m id).m.currentState = m.currentState :=
    fun m id => (exitState_preserves m id).2.1
  have hanc : ∀ fuel (m : Machine) (a b : StateID),
      (exitToAncestor fuel m a b).m.currentState = m.currentState := by
    intro fuel
    induction fuel with
    | zero => intro m a b; rfl
    | succ k ih =>
        intro m a b
        simp only [exitToAncestor]
        by_cases h0 : a = "" ∨ a = b
        · rw [if_pos h0]
        · rw [if_neg h0]
          cases hx : (exitState m a).err with
          | some e => exact hexit m a
          | none =>
              cases hl : lookupS m.definition a with
              | none => exact hexit m a
              | some st =>
                  exact (ih (exitState m a).m st.Parent b).trans (hexit m a)
  refine ⟨hexit, hanc, ?_⟩
  intro fuel m t ev e hxe
  constructor
  · unfold executeTransition
    dsimp only
    rw [show (exitToAncestor fuel m m.currentState
          (findLCA fuel m m.currentState t.To)).err = some e from hxe]
  · unfold executeTransition
    dsimp only
    rw [show (exitToAncestor fuel m m.currentState
          (findLCA fuel m m.currentState t.To)).err = some e from hxe]
    dsimp only
    exact hanc fuel m m.currentState (findLCA fuel m m.currentState t.To)

/-! ## C2: Start settles on a resolved leaf -/

theorem timeoutStep_preserves (st : State) (id : StateID) (m : Machine) :
    (timeoutStep st id m).1.definition = m.definition ∧
    (timeoutStep st id m).1.currentState = m.currentState := by
  unfold timeoutStep
  by_cases ht : st.Timeout ≠ 0 ∧ st.TimeoutEvent ≠ ""
  · rw [if_pos ht]
    exact ⟨(startTimer_preserves _ _ _ _ _ _ _).1,
           (startTimer_preserves _ _ _ _ _ _ _).2.1⟩
  · rw [if_neg ht]
    exact ⟨rfl, rfl⟩

theorem lookupS_mem (d : Definition) (id : StateID) (st : State)
    (h : lookupS d id = some st) : ∃ p ∈ d.states, p.1 = id ∧ p.2 = st := by
  unfold lookupS at h
  cases hf : d.states.find? (fun p => p.1 = id) with
  | none => rw [hf] at h; simp at h
  | some pr =>
      rw [hf] at h
      refine ⟨pr, List.mem_of_find?_eq_some hf,
        by simpa using List.find?_some hf, ?_⟩
      simpa using h

theorem enterState_preserves_def :
    ∀ fuel (m : Machine) (id : StateID) (ev : Option Event) (frm : StateID),
      (enterState fuel m id ev frm).m.definition = m.definition := by
  intro fuel
  induction fuel with
  | zero => intro m id ev frm; rfl
  | succ k ih =>
      intro m id ev frm
      simp only [enterState]
      cases hl : lookupS m.definition id with
      | none => rfl
      | some st =>
          dsimp only
          have hm2 : (timeoutStep st id { m with currentState := id }).1.definition
              = m.definition :=
            (timeoutStep_preserves st id { m with currentState := id }).1
          repeat' split
          all_goals
            first
            | exact hm2
            | exact ((exitState_preserves _ _).1.trans hm2)
            | exact ((ih _ _ _ _).trans ((exitState_preserves _ _).1.trans hm2))
            | exact ((ih _ _ _ _).trans hm2)

/-- All the information `enterState` success carries about the final leaf:
it is a declared state without default child, and either Normal/Final or a
pseudo-state whose resolution returned the empty id (witnessed in the
trace). -/
theorem enterState_ok_leaf :
    ∀ fuel (m : Machine) (id : StateID) (ev : Option Event) (frm : StateID),
      (∀ p ∈ m.definition.states,
        (p.2.Type' = StateType.Condition ∨ p.2.Type' = StateType.Junction) →
          p.2.Condition.isSome = true) →
      (enterState fuel m id ev frm).err = none →
      ∃ st, lookupS m.definition (enterState fuel m id ev frm).m.currentState
          = some st ∧
        st.DefaultChild = "" ∧
        (st.Type' = StateType.Normal ∨ st.Type' = StateType.Final ∨
          Eff.condEval (enterState fuel m id ev frm).m.currentState "" ∈
            (enterState fuel m id ev frm).tr) := by
  intro fuel
  induction fuel with
  | zero =>
      intro m id ev frm hP herr
      simp [enterState] at herr
  | succ k ih =>
      intro m id ev frm hP herr
      simp only [enterState] at herr ⊢
      cases hl : lookupS m.definition id with
      | none =>
          simp only [hl] at herr
          simp at herr
      | some st =>
          simp only [hl] at herr ⊢
          have hm2def : (timeoutStep st id { m with currentState := id }).1.definition
              = m.definition :=
            (timeoutStep_preserves st id { m with currentState := id }).1
          have hm2cur : (timeoutStep st id { m with currentState := id }).1.currentState
              = id :=
            (timeoutStep_preserves st id { m with currentState := id }).2
          rcases hE : entryStep st id ev frm
              (timeoutStep st id { m with currentState := id }).1 with ⟨oe, trE⟩
          try simp only [hE] at herr ⊢
          cases oe with
          | some e => simp at herr
          | none =>
              try dsimp only at herr ⊢
              rcases hC : condStep st id ev
                  (timeoutStep st id { m with currentState := id }).1 with ⟨onx, trC⟩
              try simp only [hC] at herr ⊢
              cases onx with
              | some nx =>
                  try dsimp only at herr ⊢
                  cases hx : (exitState
                      (timeoutStep st id { m with currentState := id }).1 id).err with
                  | some e =>
                      try simp only [hx] at herr
                      simp at herr
                  | none =>
                      try simp only [hx] at herr ⊢
                      try dsimp only at herr ⊢
                      have hdefx : (exitState
                          (timeoutStep st id { m with currentState := id }).1
                          id).m.definition = m.definition :=
                        (exitState_preserves _ _).1.trans hm2def
                      have hPd : ∀ p ∈ (exitState
                          (timeoutStep st id { m with currentState := id }).1
                          id).m.definition.states,
                          (p.2.Type' = StateType.Condition ∨
                            p.2.Type' = StateType.Junction) →
                          p.2.Condition.isSome = true := by
                        rw [hdefx]; exact hP
                      obtain ⟨st', h1, h2, h3⟩ := ih _ nx ev id hPd herr
                      rw [hdefx] at h1
                      refine ⟨st', h1, h2, ?_⟩
                      rcases h3 with h3 | h3 | h3
                      · exact Or.inl h3
                      · exact Or.inr (Or.inl h3)
                      · refine Or.inr (Or.inr ?_)
                        simp only [List.mem_append]
                        exact Or.inr h3
              | none =>
                  try dsimp only at herr ⊢
                  by_cases hdc : st.DefaultChild ≠ ""
                  · rw [if_pos hdc] at herr ⊢
                    try dsimp only at herr ⊢
                    have hPd : ∀ p ∈ (timeoutStep st id
                        { m with currentState := id }).1.definition.states,
                        (p.2.Type' = StateType.Condition ∨
                          p.2.Type' = StateType.Junction) →
                        p.2.Condition.isSome = true := by
                      rw [hm2def]; exact hP
                    obtain ⟨st', h1, h2, h3⟩ := ih _ st.DefaultChild ev id hPd herr
                    rw [hm2def] at h1
                    refine ⟨st', h1, h2, ?_⟩
                    rcases h3 with h3 | h3 | h3
                    · exact Or.inl h3
                    · exact Or.inr (Or.inl h3)
                    · refine Or.inr (Or.inr ?_)
                      simp only [List.mem_append]
                      exact Or.inr h3
                  · rw [if_neg hdc] at herr ⊢
                    try dsimp only at herr ⊢
                    have hdc' : st.DefaultChild = "" := by simpa using hdc
                    refine ⟨st, ?_, hdc', ?_⟩
                    · rw [hm2cur]; exact hl
                    · cases htype : st.Type' with
                      | Normal => exact Or.inl rfl
                      | Final => exact Or.inr (Or.inl rfl)
                      | Condition =>
                          obtain ⟨p, hpmem, hp1, hp2⟩ := lookupS_mem m.definition id st hl
                          have hcs : st.Condition.isSome = true := by
                            have := hP p hpmem (by rw [hp2]; exact Or.inl htype)
                            rwa [hp2] at this
                          obtain ⟨c, hc⟩ := Option.isSome_iff_exists.mp hcs
                          unfold condStep at hC
                          rw [if_pos (Or.inl htype), hc] at hC
                          dsimp only at hC
                          by_cases hnx : c (makeContext
                              (timeoutStep st id { m with currentState := id }).1 ev)
                              = ""
                          · rw [if_pos hnx] at hC
                            have hC2 : ([Eff.condEval id
                                (c (makeContext (timeoutStep st id
                                  { m with currentState := id }).1 ev))] : List Eff)
                                = trC := (Prod.mk.injEq _ _ _ _ ▸ hC).2
                            refine Or.inr (Or.inr ?_)
                            rw [hm2cur]
                            simp only [List.mem_append]
                            refine Or.inr ?_
                            rw [← hC2, hnx]
                            simp
                          · rw [if_neg hnx] at hC
                            exact absurd (congrArg Prod.fst hC) (by simp)
                      | Junction =>
                          obtain ⟨p, hpmem, hp1, hp2⟩ := lookupS_mem m.definition id st hl
                          have hcs : st.Condition.isSome = true := by
                            have := hP p hpmem (by rw [hp2]; exact Or.inr htype)
                            rwa [hp2] at this
                          obtain ⟨c, hc⟩ := Option.isSome_iff_exists.mp hcs
                          unfold condStep at hC
                          rw [if_pos (Or.inr htype), hc] at hC
                          dsimp only at hC
                          by_cases hnx : c (makeContext
                              (timeoutStep st id { m with currentState := id }).1 ev)
                              = ""
                          · rw [if_pos hnx] at hC
                            have hC2 : ([Eff.condEval id
                                (c (makeContext (timeoutStep st id
                                  { m with currentState := id }).1 ev))] : List Eff)
                                = trC := (Prod.mk.injEq _ _ _ _ ▸ hC).2
                            refine Or.inr (Or.inr ?_)
                            rw [hm2cur]
                            simp only [List.mem_append]
                            refine Or.inr ?_
                            rw [← hC2, hnx]
                            simp
                          · rw [if_neg hnx] at hC
                            exact absurd (congrArg Prod.fst hC) (by simp)

theorem validate_detects_condition_defect (d : Definition)
    (h : d.states.any conditionDefectB = true) : Validate d ≠ none := by
  unfold Validate
  intro hv
  split_ifs at hv

theorem validate_pseudo_condition (d : Definition) (hv : Validate d = none) :
    ∀ p ∈ d.states,
      (p.2.Type' = StateType.Condition ∨ p.2.Type' = StateType.Junction) →
      p.2.Condition.isSome = true := by
  intro p hp hty
  by_contra hno
  refine (validate_detects_condition_defect d ?_) hv
  rw [List.any_eq_true]
  refine ⟨p, hp, ?_⟩
  have hn : p.2.Condition = none := by
    cases hq : p.2.Condition with
    | none => rfl
    | some c => exact absurd (by simp [hq]) hno
  rcases hty with hty | hty <;> simp [conditionDefectB, hn, hty]

theorem build_ok_states (d : Definition) (m : Machine) (hb : Build d = .ok m) :
    m.definition.states = d.states ∧ m.definition.initial = d.initial := by
  unfold Build at hb
  cases hV : Validate d with
  | some e => rw [hV] at hb; simp at hb
  | none =>
      rw [hV] at hb
      cases hT : buildTimeoutTransitions d d.states with
      | error e => rw [hT] at hb; simp at hb
      | ok extra =>
          rw [hT] at hb
          simp only [Except.ok.injEq] at hb
          subst hb
          exact ⟨rfl, rfl⟩

/-- C2 counterexample graph: a single Condition state whose resolution
function returns the empty id and which has no default child. -/
def dCondRest : Definition :=
  { states := [("c", { ID := "c", Type' := StateType.Condition,
                       Condition := some (fun _ => "") })]
    transitions := []
    initial := "c" }

/-- The machine `Build dCondRest` produces. -/
def mCondRest : Machine :=
  { definition := { states := dCondRest.states
                    transitions := dCondRest.transitions ++ []
                    initial := dCondRest.initial }
    currentState := ""
    timers := []
    hasStateChangeCallback := false }

/--
C2 counterexample: `dCondRest` passes validation and builds, `Start`
returns without error, yet the machine comes to rest on the Condition
pseudo-state `c` — because its resolution function returned the empty id —
contradicting the claim that the leaf is always Normal or Final after a
successful `Start`.
-/
theorem start_pseudo_rest_counterexample :
    Validate dCondRest = none ∧
    Build dCondRest = .ok mCondRest ∧
    (Start 5 mCondRest).err = none ∧
    (Start 5 mCondRest).m.currentState = "c" ∧
    (lookupS mCondRest.definition "c").map State.Type'
      = some StateType.Condition := by
  refine ⟨by decide, by rfl, by decide, by decide, by decide⟩

/--
C2 (amended): for every well-formed graph (validated and built), when
`Start` returns successfully the current leaf is a declared state with no
default child and is of type Normal or Final — unless it is a
Condition/Junction pseudo-state whose resolution function returned the
empty id during the entry cascade, observable as a `condEval _ ""` effect
in the trace.
-/
theorem start_leaf_resolved (fuel : Nat) (d : Definition) (m : Machine)
    (hv : Validate d = none) (hb : Build d = .ok m)
    (hs : (Start fuel m).err = none) :
    ∃ st, lookupS m.definition (Start fuel m).m.currentState = some st ∧
      st.DefaultChild = "" ∧
      (st.Type' = StateType.Normal ∨ st.Type' = StateType.Final ∨
        Eff.condEval (Start fuel m).m.currentState "" ∈ (Start fuel m).tr) := by
  have hx : (enterState fuel m m.definition.initial none "").err = none := by
    unfold Start at hs
    cases hx2 : (enterState fuel m m.definition.initial none "").err with
    | none => rfl
    | some e =>
        simp only [hx2] at hs
        simp at hs
  have hS : Start fuel m = enterState fuel m m.definition.initial none "" := by
    unfold Start
    simp only [hx]
  have hP : ∀ p ∈ m.definition.states,
      (p.2.Type' = StateType.Condition ∨ p.2.Type' = StateType.Junction) →
      p.2.Condition.isSome = true := by
    rw [(build_ok_states d m hb).1]
    exact validate_pseudo_condition d hv
  rw [hS]
  exact enterState_ok_leaf fuel m m.definition.initial none "" hP hx

/-! ## C8: validation errors exactly characterize the defects -/

/-- One step of the parent chain: `none` when the walk stops (at the root
or at an unknown state), `some parent` otherwise. -/
def chainStep (d : Definition) (s : StateID) : Option StateID :=
  if s = "" then none
  else
    match lookupS d s with
    | none => none
    | some st => some st.Parent

/-- The chain step on `Option`; `none` is absorbing. -/
def chainG (d : Definition) : Option StateID → Option StateID
  | none => none
  | some s => chainStep d s

/-- The parent chain from `s` terminates after finitely many steps.  Its
negation is the formal reading of "a cycle in the parent chain". -/
def ChainTerminates (d : Definition) (s : StateID) : Prop :=
  ∃ n, (chainG d)^[n] (some s) = none

theorem chainG_iter_none (d : Definition) (k : Nat) :
    (chainG d)^[k] none = none :=
  Function.iterate_fixed rfl k

theorem chainG_none_mono (d : Definition) {n m : Nat} {x : Option StateID}
    (h : (chainG d)^[n] x = none) (hnm : n ≤ m) : (chainG d)^[m] x = none := by
  obtain ⟨k, rfl⟩ := Nat.exists_eq_add_of_le hnm
  rw [Nat.add_comm, Function.iterate_add_apply, h, chainG_iter_none]

theorem chain_repeat_no_none (d : Definition) {i j : Nat} {x : Option StateID}
    {v : StateID} (hij : i < j) (hi : (chainG d)^[i] x = some v)
    (hj : (chainG d)^[j] x = some v) : ∀ n, (chainG d)^[n] x ≠ none := by
  intro n hn
  have hp0 : 0 < j - i := by omega
  have hyper : (chainG d)^[j - i] ((chainG d)^[i] x) = (chainG d)^[i] x := by
    rw [← Function.iterate_add_apply]
    have hji : j - i + i = j := by omega
    rw [hji, hj, hi]
  by_cases hni : n ≤ i
  · have hcontr := chainG_none_mono d hn hni
    rw [hi] at hcontr
    exact Option.noConfusion hcontr
  · push_neg at hni
    have hyn : (chainG d)^[n - i] ((chainG d)^[i] x) = none := by
      rw [← Function.iterate_add_apply]
      have hni2 : n - i + i = n := by omega
      rw [hni2]
      exact hn
    have hmp : (chainG d)^[(n - i) * (j - i)] ((chainG d)^[i] x)
        = (chainG d)^[i] x := by
      rw [Nat.mul_comm, Function.iterate_mul]
      exact Function.iterate_fixed hyper (n - i)
    have hle : n - i ≤ (n - i) * (j - i) := Nat.le_mul_of_pos_right _ hp0
    have hcontr := chainG_none_mono d hyn hle
    rw [hmp, hi] at hcontr
    exact Option.noConfusion hcontr

theorem cycleAux_false_terminates (d : Definition) :
    ∀ fuel cur visited,
      checkParentCycleAux d cur visited fuel = false → ChainTerminates d cur := by
  intro fuel
  induction fuel with
  | zero => intro cur vis h; simp [checkParentCycleAux] at h
  | succ k ih =>
      intro cur vis h
      unfold checkParentCycleAux at h
      by_cases hc : cur = ""
      · exact ⟨1, by simp [chainG, chainStep, hc]⟩
      · rw [if_neg hc] at h
        by_cases hvis : cur ∈ vis
        · rw [if_pos hvis] at h; simp at h
        · rw [if_neg hvis] at h
          cases hl : lookupS d cur with
          | none => exact ⟨1, by simp [chainG, chainStep, hc, hl]⟩
          | some st =>
              rw [hl] at h
              obtain ⟨n, hn⟩ := ih st.Parent (cur :: vis) h
              refine ⟨n + 1, ?_⟩
              rw [Function.iterate_succ_apply]
              have hg : chainG d (some cur) = some st.Parent := by
                simp [chainG, chainStep, hc, hl]
              rw [hg]
              exact hn

theorem cycleAux_true_not_term (d : Definition) (s0 : StateID) :
    ∀ fuel cur visited,
      visited.Nodup →
      (∀ v ∈ visited, v ∈ d.states.map Prod.fst) →
      d.states.length + 1 ≤ fuel + visited.length →
      (∃ k, (chainG d)^[k] (some s0) = some cur ∧
        ∀ v ∈ visited, ∃ j, j < k ∧ (chainG d)^[j] (some s0) = some v) →
      checkParentCycleAux d cur visited fuel = true →
      ¬ ChainTerminates d s0 := by
  intro fuel
  induction fuel with
  | zero =>
      intro cur vis hnd hsub harith hinv h
      exfalso
      have hle : vis.length ≤ (d.states.map Prod.fst).length :=
        (List.Nodup.subperm hnd hsub).length_le
      rw [List.length_map] at hle
      omega
  | succ k ih =>
      intro cur vis hnd hsub harith hinv h
      unfold checkParentCycleAux at h
      by_cases hc : cur = ""
      · rw [if_pos hc] at h; simp at h
      · rw [if_neg hc] at h
        by_cases hvis : cur ∈ vis
        · obtain ⟨kk, hkk, hall⟩ := hinv
          obtain ⟨j, hj, hjv⟩ := hall cur hvis
          rintro ⟨n, hn⟩
          exact chain_repeat_no_none d hj hjv hkk n hn
        · rw [if_neg hvis] at h
          cases hl : lookupS d cur with
          | none => rw [hl] at h; simp at h
          | some st =>
              rw [hl] at h
              obtain ⟨pp, hpmem, hp1, hp2⟩ := lookupS_mem d cur st hl
              obtain ⟨kk, hkk, hall⟩ := hinv
              refine ih st.Parent (cur :: vis)
                (List.nodup_cons.mpr ⟨hvis, hnd⟩) ?_ ?_ ?_ h
              · intro v hv
                rcases List.mem_cons.mp hv with rfl | hv
                · exact List.mem_map.mpr ⟨pp, hpmem, hp1⟩
                · exact hsub v hv
              · simp only [List.length_cons]
                omega
              · refine ⟨kk + 1, ?_, ?_⟩
                · rw [Function.iterate_succ_apply', hkk]
                  simp [chainG, chainStep, hc, hl]
                · intro v hv
                  rcases List.mem_cons.mp hv with rfl | hv
                  · exact ⟨kk, Nat.lt_succ_self kk, hkk⟩
                  · obtain ⟨j, hj, hjv⟩ := hall v hv
                    exact ⟨j, Nat.lt_succ_of_lt hj, hjv⟩

theorem checkParentCycle_iff (d : Definition) (s : StateID) :
    checkParentCycle d s = true ↔ ¬ ChainTerminates d s := by
  constructor
  · intro h
    exact cycleAux_true_not_term d s (d.states.length + 1) s []
      (by simp) (by simp) (by simp) ⟨0, rfl, by simp⟩ h
  · intro h
    cases hb : checkParentCycle d s with
    | false => exact absurd (cycleAux_false_terminates d _ s [] hb) h
    | true => rfl

/-- The defect enumeration of the claim: no/undefined initial state, a
dangling parent or default-child reference, a dangling non-wildcard
transition endpoint, a Condition/Junction state without a resolution
function, a cycle in the parent chain, or a dangling declarative-timeout
target. -/
def SpecDefect (d : Definition) : Prop :=
  d.initial = "" ∨ lookupS d d.initial = none ∨
  (∃ p ∈ d.states, p.2.Parent ≠ "" ∧ lookupS d p.2.Parent = none) ∨
  (∃ p ∈ d.states, p.2.DefaultChild ≠ "" ∧ lookupS d p.2.DefaultChild = none) ∨
  (∃ t ∈ d.transitions,
    (t.From ≠ WildcardState ∧ lookupS d t.From = none) ∨ lookupS d t.To = none) ∨
  (∃ p ∈ d.states,
    (p.2.Type' = StateType.Condition ∨ p.2.Type' = StateType.Junction) ∧
      p.2.Condition = none) ∨
  (∃ p ∈ d.states, ¬ ChainTerminates d p.1) ∨
  (∃ p ∈ d.states, p.2.TimeoutTarget ≠ "" ∧ lookupS d p.2.TimeoutTarget = none)

theorem parentDefectB_iff (d : Definition) (p : StateID × State) :
    parentDefectB d p = true ↔
      ((p.2.Parent ≠ "" ∧ lookupS d p.2.Parent = none) ∨
       (p.2.DefaultChild ≠ "" ∧ lookupS d p.2.DefaultChild = none)) := by
  unfold parentDefectB
  by_cases h1 : p.2.Parent = "" <;> by_cases h2 : p.2.DefaultChild = "" <;>
    simp [h1, h2, Option.isNone_iff_eq_none]

theorem transitionDefectB_iff (d : Definition) (t : Transition) :
    transitionDefectB d t = true ↔
      ((t.From ≠ WildcardState ∧ lookupS d t.From = none) ∨
       lookupS d t.To = none) := by
  unfold transitionDefectB
  by_cases h1 : t.From = WildcardState <;>
    simp [h1, Option.isNone_iff_eq_none]

theorem conditionDefectB_iff (p : StateID × State) :
    conditionDefectB p = true ↔
      ((p.2.Type' = StateType.Condition ∨ p.2.Type' = StateType.Junction) ∧
        p.2.Condition = none) := by
  unfold conditionDefectB
  simp [Option.isNone_iff_eq_none]

theorem any_parentDefect_iff (d : Definition) :
    d.states.any (parentDefectB d) = true ↔
      ((∃ p ∈ d.states, p.2.Parent ≠ "" ∧ lookupS d p.2.Parent = none) ∨
       (∃ p ∈ d.states, p.2.DefaultChild ≠ "" ∧
         lookupS d p.2.DefaultChild = none)) := by
  rw [List.any_eq_true]
  constructor
  · rintro ⟨p, hp, hdef⟩
    rcases (parentDefectB_iff d p).mp hdef with h | h
    · exact Or.inl ⟨p, hp, h⟩
    · exact Or.inr ⟨p, hp, h⟩
  · rintro (⟨p, hp, h⟩ | ⟨p, hp, h⟩)
    · exact ⟨p, hp, (parentDefectB_iff d p).mpr (Or.inl h)⟩
    · exact ⟨p, hp, (parentDefectB_iff d p).mpr (Or.inr h)⟩

theorem any_transitionDefect_iff (d : Definition) :
    d.transitions.any (transitionDefectB d) = true ↔
      ∃ t ∈ d.transitions,
        (t.From ≠ WildcardState ∧ lookupS d t.From = none) ∨
        lookupS d t.To = none := by
  rw [List.any_eq_true]
  constructor
  · rintro ⟨t, ht, hdef⟩
    exact ⟨t, ht, (transitionDefectB_iff d t).mp hdef⟩
  · rintro ⟨t, ht, hdef⟩
    exact ⟨t, ht, (transitionDefectB_iff d t).mpr hdef⟩

theorem any_conditionDefect_iff (d : Definition) :
    d.states.any conditionDefectB = true ↔
      ∃ p ∈ d.states,
        (p.2.Type' = StateType.Condition ∨ p.2.Type' = StateType.Junction) ∧
        p.2.Condition = none := by
  rw [List.any_eq_true]
  constructor
  · rintro ⟨p, hp, hdef⟩
    exact ⟨p, hp, (conditionDefectB_iff p).mp hdef⟩
  · rintro ⟨p, hp, hdef⟩
    exact ⟨p, hp, (conditionDefectB_iff p).mpr hdef⟩

theorem any_cycle_iff (d : Definition) :
    (d.states.any fun p => checkParentCycle d p.1) = true ↔
      ∃ p ∈ d.states, ¬ ChainTerminates d p.1 := by
  rw [List.any_eq_true]
  constructor
  · rintro ⟨p, hp, hdef⟩
    exact ⟨p, hp, (checkParentCycle_iff d p.1).mp hdef⟩
  · rintro ⟨p, hp, hdef⟩
    exact ⟨p, hp, (checkParentCycle_iff d p.1).mpr hdef⟩

theorem Validate_none_iff (d : Definition) :
    Validate d = none ↔
      (¬ d.initial = "" ∧ ¬ lookupS d d.initial = none ∧
       ¬ d.states.any (parentDefectB d) = true ∧
       ¬ d.transitions.any (transitionDefectB d) = true ∧
       ¬ d.states.any conditionDefectB = true ∧
       ¬ (d.states.any fun p => checkParentCycle d p.1) = true) := by
  unfold Validate
  split_ifs with h1 h2 h3 h4 h5 h6 <;>
    (simp_all [Option.isNone_iff_eq_none]; try assumption)

theorem buildTimeout_error_iff (d : Definition) :
    ∀ l : List (StateID × State),
      (∃ e, buildTimeoutTransitions d l = .error e) ↔
      ∃ p ∈ l, p.2.TimeoutTarget ≠ "" ∧ lookupS d p.2.TimeoutTarget = none := by
  intro l
  induction l with
  | nil => simp [buildTimeoutTransitions]
  | cons hd tl ih =>
      obtain ⟨id, st⟩ := hd
      by_cases h1 : st.TimeoutTarget = ""
      · simp only [buildTimeoutTransitions, if_pos h1]
        rw [ih]
        constructor
        · rintro ⟨p, hp, hdef⟩
          exact ⟨p, List.mem_cons_of_mem _ hp, hdef⟩
        · rintro ⟨p, hp, hdef⟩
          rcases List.mem_cons.mp hp with rfl | hp
          · exact absurd h1 hdef.1
          · exact ⟨p, hp, hdef⟩
      · by_cases h2 : (lookupS d st.TimeoutTarget).isNone = true
        · have h2' : lookupS d st.TimeoutTarget = none :=
            Option.isNone_iff_eq_none.mp h2
          simp only [buildTimeoutTransitions, if_neg h1, if_pos h2]
          constructor
          · intro _
            exact ⟨(id, st), List.mem_cons_self _ _, h1, h2'⟩
          · intro _
            exact ⟨_, rfl⟩
        · have h2' : ¬ lookupS d st.TimeoutTarget = none := by
            simpa [Option.isNone_iff_eq_none] using h2
          simp only [buildTimeoutTransitions, if_neg h1, if_neg h2]
          cases hr : buildTimeoutTransitions d tl with
          | error e =>
              constructor
              · intro _
                obtain ⟨p, hp, hdef⟩ := ih.mp ⟨e, hr⟩
                exact ⟨p, List.mem_cons_of_mem _ hp, hdef⟩
              · intro _
                exact ⟨e, rfl⟩
          | ok ts =>
              constructor
              · rintro ⟨e, he⟩
                exact Except.noConfusion he
              · rintro ⟨p, hp, hdef⟩
                rcases List.mem_cons.mp hp with rfl | hp
                · exact absurd hdef.2 h2'
                · obtain ⟨e, he⟩ := ih.mpr ⟨p, hp, hdef⟩
                  rw [hr] at he
                  exact Except.noConfusion he

/--
C8: building a definition fails with an error exactly when one of the
enumerated defects is present — no/undefined initial state, a dangling
parent or default-child reference, a dangling non-wildcard transition
endpoint, a Condition/Junction state without a resolution function, a
cycle in the parent chain, or a dangling declarative-timeout target — and
a Machine instance is produced exactly when no defect is present (so no
instance is created on any error).
-/
theorem build_error_iff_defect (d : Definition) :
    ((∃ e, Build d = .error e) ↔ SpecDefect d) ∧
    ((∃ m, Build d = .ok m) ↔ ¬ SpecDefect d) := by
  have hmain : (∃ e, Build d = .error e) ↔ SpecDefect d := by
    unfold Build
    unfold SpecDefect
    cases hV : Validate d with
    | some e0 =>
        simp only []
        constructor
        · intro _
          have hne : ¬ (Validate d = none) := by rw [hV]; simp
          rw [Validate_none_iff] at hne
          by_cases h1 : d.initial = ""
          · exact Or.inl h1
          by_cases h2 : lookupS d d.initial = none
          · exact Or.inr (Or.inl h2)
          by_cases h3 : d.states.any (parentDefectB d) = true
          · rcases (any_parentDefect_iff d).mp h3 with h | h
            · exact Or.inr (Or.inr (Or.inl h))
            · exact Or.inr (Or.inr (Or.inr (Or.inl h)))
          by_cases h4 : d.transitions.any (transitionDefectB d) = true
          · exact Or.inr (Or.inr (Or.inr (Or.inr (Or.inl
              ((any_transitionDefect_iff d).mp h4)))))
          by_cases h5 : d.states.any conditionDefectB = true
          · exact Or.inr (Or.inr (Or.inr (Or.inr (Or.inr (Or.inl
              ((any_conditionDefect_iff d).mp h5))))))
          by_cases h6 : (d.states.any fun p => checkParentCycle d p.1) = true
          · exact Or.inr (Or.inr (Or.inr (Or.inr (Or.inr (Or.inr (Or.inl
              ((any_cycle_iff d).mp h6)))))))
          exact absurd ⟨h1, h2, h3, h4, h5, h6⟩ hne
        · intro _
          exact ⟨_, rfl⟩
    | none =>
        simp only []
        have hconj := (Validate_none_iff d).mp hV
        cases hT : buildTimeoutTransitions d d.states with
        | error e =>
            constructor
            · intro _
              obtain ⟨p, hp, hdef⟩ := (buildTimeout_error_iff d d.states).mp ⟨e, hT⟩
              exact Or.inr (Or.inr (Or.inr (Or.inr (Or.inr (Or.inr (Or.inr
                ⟨p, hp, hdef⟩))))))
            · intro _
              exact ⟨e, rfl⟩
        | ok extra =>
            constructor
            · rintro ⟨e, he⟩
              exact Except.noConfusion he
            · rintro (h | h | h | h | h | h | h | h)
              · exact absurd h hconj.1
              · exact absurd h hconj.2.1
              · exact absurd ((any_parentDefect_iff d).mpr (Or.inl h)) hconj.2.2.1
              · exact absurd ((any_parentDefect_iff d).mpr (Or.inr h)) hconj.2.2.1
              · exact absurd ((any_transitionDefect_iff d).mpr h) hconj.2.2.2.1
              · exact absurd ((any_conditionDefect_iff d).mpr h) hconj.2.2.2.2.1
              · exact absurd ((any_cycle_iff d).mpr h) hconj.2.2.2.2.2
              · obtain ⟨e, he⟩ := (buildTimeout_error_iff d d.states).mpr h
                rw [hT] at he
                exact Except.noConfusion he
  refine ⟨hmain, ?_⟩
  constructor
  · rintro ⟨m, hm⟩ hdef
    obtain ⟨e, he⟩ := hmain.mpr hdef
    rw [hm] at he
    exact Except.noConfusion he
  · intro hdef
    cases hB : Build d with
    | error e => exact absurd (hmain.mp ⟨e, hB⟩) hdef
    | ok m => exact ⟨m, rfl⟩

/-! ## Concrete witnesses -/

/-- Two-state toggle graph (C1 witness). -/
def dW1 : Definition :=
  { states := [("off", { ID := "off" }), ("on", { ID := "on" })]
    transitions := [{ From := "off", Event := "toggle", To := "on" },
                    { From := "on", Event := "toggle", To := "off" }]
    initial := "off" }

/-- Toggle machine resting on `off` (C1 witness). -/
def mW1 : Machine := { definition := dW1, currentState := "off" }

/-- Witness for C1: an event with no matching transition is silently
discarded, leaving the machine unchanged. -/
theorem processEvent_selection_witness :
    processEvent 5 mW1 ⟨"nope"⟩ = ⟨mW1, [], none⟩ :=
  (processEvent_selection 5 mW1 ⟨"nope"⟩).2.2.2 (by rfl)

/-- One-state graph (C2 witness). -/
def dW2 : Definition :=
  { states := [("a", { ID := "a" })], transitions := [], initial := "a" }

/-- The machine `Build dW2` produces (C2 witness). -/
def mW2 : Machine :=
  { definition := { states := dW2.states
                    transitions := dW2.transitions ++ []
                    initial := dW2.initial }
    currentState := ""
    timers := []
    hasStateChangeCallback := false }

/-- Witness for the amended C2 at a concrete well-formed graph. -/
theorem start_leaf_resolved_witness :
    ∃ st, lookupS mW2.definition (Start 3 mW2).m.currentState = some st ∧
      st.DefaultChild = "" ∧
      (st.Type' = StateType.Normal ∨ st.Type' = StateType.Final ∨
        Eff.condEval (Start 3 mW2).m.currentState "" ∈ (Start 3 mW2).tr) :=
  start_leaf_resolved 3 dW2 mW2 (by decide) (by rfl) (by decide)

/-- Two-state graph (C3 witness). -/
def dW3 : Definition :=
  { states := [("p", { ID := "p" }), ("q", { ID := "q" })]
    transitions := [], initial := "p" }

/-- Machine resting on `p` (C3 witness). -/
def mW3 : Machine := { definition := dW3, currentState := "p" }

/-- Witness for C3: entering `q` sets the current leaf first. -/
theorem enterState_entry_order_witness :
    (enterState 3 mW3 "q" none "p").tr.head? = some (Eff.setCurrent "q") :=
  (enterState_entry_order 2 mW3 "q" none "p" { ID := "q" } (by rfl)).1

/-- One-state graph with a running global timer (C5 witness). -/
def mW5 : Machine :=
  { definition := { states := [("a", { ID := "a" })], transitions := []
                    initial := "a" }
    currentState := "a"
    timers := [("t", { event := ⟨"e"⟩, scope := TimerScope.Global,
                       ownerState := "", duration := 7 })] }

/-- Witness for C5: firing the present timer removes it first. -/
theorem timer_fire_retry_witness :
    (fireTimer mW5 "t").2.head? = some (Eff.timerFire "t") :=
  (timer_fire_retry mW5 "t"
    { event := ⟨"e"⟩, scope := TimerScope.Global, ownerState := ""
      duration := 7 } (by rfl)).1

/-- One-state graph with a running global timer (C6 witness). -/
def mW6 : Machine :=
  { definition := { states := [("a", { ID := "a" })], transitions := []
                    initial := "a" }
    currentState := "a"
    timers := [("t", { event := ⟨"e"⟩, scope := TimerScope.Global,
                       ownerState := "", duration := 7 })] }

/-- Witness for C6: restarting timer `t` cancels the prior one exactly
once and installs the new entry. -/
theorem startTimer_replace_unique_witness :
    (startTimerInternalWithAction mW6 "t" 9 ⟨"e2"⟩ TimerScope.Global "" none).2
      = [Eff.timerCancel "t", Eff.timerStart "t" 9 "e2" TimerScope.Global ""] :=
  (startTimer_replace_unique mW6 "t" 9 ⟨"e2"⟩ TimerScope.Global "" none
    { event := ⟨"e"⟩, scope := TimerScope.Global, ownerState := ""
      duration := 7 } (by rfl)).1

/-- Two-state graph (C7 witness). -/
def mW7 : Machine :=
  { definition := { states := [("off", { ID := "off" }), ("on", { ID := "on" })]
                    transitions := [], initial := "off" }
    currentState := "off" }

/-- Witness for the amended C7: an undeclared target id yields an error and
an unchanged machine. -/
theorem setState_behavior_witness :
    SetState 4 mW7 "ghost" = ⟨mW7, [], some ("unknown state: " ++ "ghost")⟩ :=
  (setState_behavior 4 mW7 "ghost").1 (by rfl)

/-- Two-state graph (C9 witness). -/
def mW9 : Machine :=
  { definition := { states := [("off", { ID := "off" }), ("on", { ID := "on" })]
                    transitions := [], initial := "off" }
    currentState := "off" }

/-- Witness for C9: a self-set on the declared current leaf is a no-op. -/
theorem setState_self_noop_witness :
    SetState 4 mW9 mW9.currentState = ⟨mW9, [], none⟩ :=
  setState_self_noop 4 mW9 (by rfl)

/-- Graph whose state `e1` has a failing exit callback (C10 witness). -/
def dW10 : Definition :=
  { states := [("e1", { ID := "e1", OnExit := some (fun _ => .error "boom") }),
               ("e2", { ID := "e2" })]
    transitions := [{ From := "e1", Event := "go", To := "e2" }]
    initial := "e1" }

/-- Machine resting on `e1` (C10 witness). -/
def mW10 : Machine := { definition := dW10, currentState := "e1" }

/-- Witness for C10: the failing exit aborts the transition with the
pre-transition leaf intact. -/
theorem exit_preserves_current_leaf_witness :
    executeTransition 4 mW10 { From := "e1", Event := "go", To := "e2" } ⟨"go"⟩ =
      ⟨(exitToAncestor 4 mW10 mW10.currentState
          (findLCA 4 mW10 mW10.currentState "e2")).m,
       (exitToAncestor 4 mW10 mW10.currentState
          (findLCA 4 mW10 mW10.currentState "e2")).tr,
       some ("exit failed: " ++ "exit action failed for e1: boom")⟩ ∧
    (executeTransition 4 mW10 { From := "e1", Event := "go", To := "e2" }
        ⟨"go"⟩).m.currentState = mW10.currentState :=
  exit_preserves_current_leaf.2.2 4 mW10
    { From := "e1", Event := "go", To := "e2" } ⟨"go"⟩
    ("exit action failed for e1: boom") (by rfl)

end LibreFSM
